import Mathlib

/-!
Verification of the nutrient OCR extraction core of robotoff
(`robotoff/insights/ocr/nutrient.py`) and of `batch_insert`
(`robotoff/models.py`), as a shallow embedding over `List Char` texts.

Python regular expressions used by the source are embedded as an explicit
AST (`Regex`) together with a backtracking matcher (`mmatch`) that
enumerates the possible (consumed, rest) splits in Python's backtracking
priority order: alternation tries the left alternative first, `?` and `*`
are greedy.  The `(?<!\w)` look-behind and `(?!\w)` look-ahead of the
compiled patterns are applied by the match-at-position functions.
-/

namespace Robotoff

/-- AST for the fragment of Python regex syntax used by the nutrient
patterns: the empty pattern, a character class `[...]`, concatenation,
alternation `|` (left alternative has priority), the greedy option `?`, and
the greedy star restricted to character classes (`[0-9]*`). -/
inductive Regex where
  | eps : Regex
  | cls : List Char → Regex
  | cat : Regex → Regex → Regex
  | alt : Regex → Regex → Regex
  | opt : Regex → Regex
  | starCls : List Char → Regex
deriving DecidableEq, Repr

/-- A single literal character, as the one-element class. -/
def Regex.ch (c : Char) : Regex := .cls [c]

/-- A literal string of characters. -/
def rstr (s : String) : Regex := s.data.foldr (fun c r => .cat (.ch c) r) .eps

/-- Sequencing of a list of regexes. -/
def sq (rs : List Regex) : Regex := rs.foldr .cat .eps

/-- `"|".join`: alternation of a list of regexes, left-to-right priority. -/
def altList : List Regex → Regex
  | [] => .eps
  | [r] => r
  | r :: rs => .alt r (altList rs)

/-- Greedy-first enumeration of the splits of `s` into a prefix of
characters from `cs` and the rest (the splits of `[c]*` against `s`). -/
def starSplits (cs : List Char) : List Char → List (List Char × List Char)
  | [] => [([], [])]
  | c :: rest =>
      if c ∈ cs then
        (starSplits cs rest).map (fun p => (c :: p.1, p.2)) ++ [([], c :: rest)]
      else [([], c :: rest)]

/-- All ways a regex can match a prefix of `s`, as (consumed, rest) pairs,
listed in Python's backtracking priority order. -/
def mmatch : Regex → List Char → List (List Char × List Char)
  | .eps, s => [([], s)]
  | .cls _, [] => []
  | .cls cs, c :: rest => if c ∈ cs then [([c], rest)] else []
  | .cat a b, s =>
      (mmatch a s).flatMap (fun p => (mmatch b p.2).map (fun q => (p.1 ++ q.1, q.2)))
  | .alt a b, s => mmatch a s ++ mmatch b s
  | .opt a, s => mmatch a s ++ [([], s)]
  | .starCls cs, s => starSplits cs s

/-- Characters the embedding treats as `\w` (Python's re is unicode-aware:
letters, digits and underscore; the accented letters reachable through the
patterns are listed explicitly). -/
def extraWordChars : List Char :=
  ['é', 'è', 'á', 'í', 'ú', 'ä', 'ö', 'ü', 'ß', 'ç', 'à',
   'É', 'È', 'Á', 'Í', 'Ú', 'Ä', 'Ö', 'Ü', 'Ç', 'À']

/-- Python `\w`: alphanumeric or underscore (plus the accented letters of
`extraWordChars`). -/
def isWordChar (c : Char) : Bool := c.isAlphanum || c == '_' || c ∈ extraWordChars

/-- The `(?<!\w)` look-behind at position `pos` of `s`: the character just
before `pos`, if any, is not a word character. -/
def prevOk (s : List Char) (pos : Nat) : Bool :=
  match (s.take pos).getLast? with
  | none => true
  | some c => !isWordChar c

/-- The `(?!\w)` look-ahead in front of the rest `r` of the text: the next
character, if any, is not a word character. -/
def nextOk (r : List Char) : Bool :=
  match r with
  | [] => true
  | c :: _ => !isWordChar c

/-- `EXTRACTOR_VERSION = "1"` (nutrient.py line 8). -/
def EXTRACTOR_VERSION : String := "1"

/-- The character class `[ée]`. -/
def eE : Regex := .cls ['é', 'e']
/-- The character class `[èe]`. -/
def eGrave : Regex := .cls ['è', 'e']
/-- The character class `[aá]`. -/
def aA : Regex := .cls ['a', 'á']
/-- The character class `[íi]`. -/
def iI : Regex := .cls ['í', 'i']
/-- The character class `[úu]`. -/
def uU : Regex := .cls ['ú', 'u']
/-- The fragment `s?` (optional plural). -/
def osR : Regex := .opt (.ch 's')

/-- `NUTRIENT_MENTION`: each nutrient kind's list of (mention-pattern,
language-tags) pairs, in source insertion order; every pattern string of
nutrient.py is translated to its `Regex` AST (the source fragment is noted
next to each entry). -/
def NUTRIENT_MENTION : List (String × List (Regex × List String)) :=
  [("energy",
    [(sq [eE, rstr "nergie"], ["fr", "de"]),                         -- "[ée]nergie"
     (sq [rstr "valeur", osR, .ch ' ', eE, rstr "nerg", eE, rstr "tique", osR],
        ["fr"]),                                                     -- "valeurs? [ée]nerg[ée]tiques?"
     (rstr "energy", ["en"]),                                        -- "energy"
     (rstr "calories", ["fr", "en"]),                                -- "calories"
     (rstr "energia", ["es"]),                                       -- "energia"
     (sq [rstr "valor energ", eE, rstr "tico"], ["es"])]),           -- "valor energ[ée]tico"
   ("saturated_fat",
    [(sq [rstr "mati", eGrave, rstr "re", osR, rstr " grasse", osR, rstr " satur", eE, osR],
        ["fr"]),                                                     -- "mati[èe]res? grasses? satur[ée]s?"
     (sq [rstr "acide", osR, rstr " gras satur", eE, osR], ["fr"]),  -- "acides? gras satur[ée]s?"
     (sq [rstr "dont satur", eE, osR], ["fr"]),                      -- "dont satur[ée]s?"
     (rstr "saturated fat", ["en"]),                                 -- "saturated fat"
     (rstr "of which saturates", ["en"]),                            -- "of which saturates"
     (rstr "verzadigde vetzuren", ["nl"]),                           -- "verzadigde vetzuren"
     (rstr "waarvan verzadigde", ["nl"]),                            -- "waarvan verzadigde"
     (rstr "gesättigte fettsäuren", ["de"]),                         -- "gesättigte fettsäuren"
     (sq [aA, rstr "cidos grasos saturados"], ["es"])]),             -- "[aá]cidos grasos saturados"
   ("trans_fat",
    [(sq [rstr "mati", eGrave, rstr "re", osR, rstr " grasse", osR, rstr " trans"],
        ["fr"]),                                                     -- "mati[èe]res? grasses? trans"
     (rstr "trans fat", ["en"])]),                                   -- "trans fat"
   ("fat",
    [(sq [rstr "mati", eGrave, rstr "re", osR, rstr " grasse", osR], ["fr"]),
                                                                     -- "mati[èe]res? grasses?"
     (sq [rstr "graisse", osR], ["fr"]),                             -- "graisses?"
     (sq [rstr "lipide", osR], ["fr"]),                              -- "lipides?"
     (rstr "total fat", ["en"]),                                     -- "total fat"
     (rstr "vetten", ["nl"]),                                        -- "vetten"
     (rstr "fett", ["de"]),                                          -- "fett"
     (rstr "grasas", ["es"]),                                        -- "grasas"
     (sq [.ch 'l', iI, rstr "pidos"], ["es"])]),                     -- "l[íi]pidos"
   ("sugar",
    [(sq [rstr "sucre", osR], ["fr"]),                               -- "sucres?"
     (sq [rstr "sugar", osR], ["en"]),                               -- "sugars?"
     (sq [rstr "suiker", osR], ["nl"]),                              -- "suikers?"
     (rstr "zucker", ["de"]),                                        -- "zucker"
     (sq [rstr "az", uU, rstr "cares"], ["es"])]),                   -- "az[úu]cares"
   ("carbohydrate",
    [(rstr "total carbohydrate", ["en"]),                            -- "total carbohydrate"
     (sq [rstr "glucid", osR], ["fr"]),                              -- "glucids?"
     (sq [rstr "glucide", osR], ["en"]),                             -- "glucides?"
     (rstr "koolhydraten", ["nl"]),                                  -- "koolhydraten"
     (rstr "koolhydraat", ["nl"]),                                   -- "koolhydraat"
     (rstr "kohlenhydrate", ["de"]),                                 -- "kohlenhydrate"
     (rstr "hidratos de carbono", ["es"])]),                         -- "hidratos de carbono"
   ("protein",
    [(sq [rstr "prot", eE, rstr "ine", osR], ["fr"]),                -- "prot[ée]ines?"
     (rstr "protein", ["en"]),                                       -- "protein"
     (rstr "eiwitten", ["nl"]),                                      -- "eiwitten"
     (rstr "eiweiß", ["de"]),                                        -- "eiweiß"
     (sq [rstr "prote", iI, rstr "nas"], ["es"])]),                  -- "prote[íi]nas"
   ("salt",
    [(rstr "sel", ["fr"]),                                           -- "sel"
     (rstr "salt", ["en"]),                                          -- "salt"
     (rstr "zout", ["nl"]),                                          -- "zout"
     (rstr "salz", ["de"]),                                          -- "salz"
     (rstr "sal", ["es"])]),                                         -- "sal"
   ("fiber",
    [(sq [rstr "fibre", osR], ["en", "fr"]),                         -- "fibres?"
     (sq [rstr "fiber", osR], ["en"]),                               -- "fibers?"
     (sq [rstr "fibre", osR, rstr " alimentaire", osR], ["fr"]),     -- "fibres? alimentaires?"
     (sq [.opt (rstr "voedings"), rstr "vezel", osR], ["nl"]),       -- "(?:voedings)?vezels?"
     (rstr "ballaststoffe", ["de"]),                                 -- "ballaststoffe"
     (sq [rstr "fibra", .opt (rstr " alimentaria")], ["es"])]),      -- "fibra(?: alimentaria)?"
   ("nutrition_values",
    [(sq [rstr "information", osR, rstr " nutritionnelle", osR, .opt (sq [rstr " moyenne", osR])],
        ["fr"]),                                         -- "informations? nutritionnelles?(?: moyennes?)?"
     (sq [rstr "valeur", osR, rstr " nutritionnelle", osR, .opt (sq [rstr " moyenne", osR])],
        ["fr"]),                                         -- "valeurs? nutritionnelles?(?: moyennes?)?"
     (rstr "analyse moyenne pour", ["fr"]),                          -- "analyse moyenne pour"
     (sq [rstr "valeur", osR, rstr " nutritive", osR], ["fr"]),      -- "valeurs? nutritives?"
     (sq [rstr "valeur", osR, rstr " moyenne", osR], ["fr"]),        -- "valeurs? moyennes?"
     (sq [rstr "nutrition fact", osR], ["en"]),                      -- "nutrition facts?"
     (rstr "gemiddelde waarden per", ["nl"])])]                      -- "gemiddelde waarden per"

/-- `NUTRIENT_UNITS`: the unit catalog, kind to unit tokens, in source
insertion order. -/
def NUTRIENT_UNITS : List (String × List String) :=
  [("energy", ["kj", "kcal"]),
   ("saturated_fat", ["g"]),
   ("trans_fat", ["g"]),
   ("fat", ["g"]),
   ("sugar", ["g"]),
   ("carbohydrate", ["g"]),
   ("protein", ["g"]),
   ("salt", ["g"]),
   ("fiber", ["g"])]

/-- The compiled value pattern, as its pieces in order.  The glue pieces
correspond to the fixed parts of the format string
`(?<!\w)({mentions}) ?(?:[:-] ?)?([0-9]+[,.]?[0-9]*) ?({units})(?!\w)`;
the look-around anchors are applied by `valueMatchAt`. -/
structure ValueRegex where
  mention : Regex
  sep : Regex
  number : Regex
  space2 : Regex
  unitRe : Regex
deriving DecidableEq, Repr

/-- The digit class `[0-9]`. -/
def digitCls : List Char := ['0', '1', '2', '3', '4', '5', '6', '7', '8', '9']

/-- The captured number pattern `[0-9]+[,.]?[0-9]*`. -/
def numberRe : Regex :=
  .cat (.cat (.cls digitCls) (.starCls digitCls))
       (.cat (.opt (.cls [',', '.'])) (.starCls digitCls))

/-- The separator glue ` ?(?:[:-] ?)?` between mention and number. -/
def sepRe : Regex := .cat (.opt (.ch ' ')) (.opt (.cat (.cls [':', '-']) (.opt (.ch ' '))))

/-- The optional space ` ?` between number and unit. -/
def spaceOptRe : Regex := .opt (.ch ' ')

/-- `generate_nutrient_regex` (nutrient.py lines 107-117): joins the
mention fragments with `|` into the captured mention group, and the unit
tokens with `|` into the captured unit group, around the fixed separator,
number and space pieces of the format string. -/
def generate_nutrient_regex (nutrient_mentions : List (Regex × List String))
    (units : List String) : ValueRegex :=
  { mention := altList (nutrient_mentions.map Prod.fst),
    sep := sepRe,
    number := numberRe,
    space2 := spaceOptRe,
    unitRe := altList (units.map rstr) }

/-- `generate_nutrient_mention_regex` (nutrient.py lines 120-123): the
`|`-join of the mention fragments, compiled as `(?<!\w)({names})(?!\w)`
(anchors applied by `mentionMatchAt`). -/
def generate_nutrient_mention_regex (nutrient_mentions : List (Regex × List String)) : Regex :=
  altList (nutrient_mentions.map Prod.fst)

/-- The one OCR text field selector this design uses. -/
inductive OCRField where
  | full_text_contiguous : OCRField
deriving DecidableEq, Repr

/-- `OCRRegex`: a compiled matcher plus its field selector and lowercase
flag. -/
structure OCRRegex (α : Type) where
  regex : α
  field : OCRField
  lowercase : Bool
deriving DecidableEq, Repr

/-- ASCII lowercase plus the uppercase accented letters reachable here. -/
def pyToLower (c : Char) : Char :=
  if c = 'É' then 'é' else if c = 'È' then 'è' else if c = 'Á' then 'á'
  else if c = 'Í' then 'í' else if c = 'Ú' then 'ú' else if c = 'Ä' then 'ä'
  else if c = 'Ö' then 'ö' else if c = 'Ü' then 'ü' else if c = 'Ç' then 'ç'
  else if c = 'À' then 'à' else c.toLower

/-- Lowercasing of a text. -/
def pyLower (s : List Char) : List Char := s.map pyToLower

/-- Modelled from the spec: `get_text` belongs to
`robotoff.insights.ocr.dataclass`, which is not among the repository's
files; per spec §4.3 a raw-string content is used directly regardless of
the field selector, lowercased when the matcher's case-normalization flag
is set. -/
def get_text {α : Type} (content : List Char) (orx : OCRRegex α) : List Char :=
  if orx.lowercase then pyLower content else content

/-- The dict comprehension of `NUTRIENT_VALUES_REGEX` over a unit catalog:
each kind is looked up in `NUTRIENT_MENTION`, and a missing kind is
Python's fatal `KeyError` at module initialization, modelled as `none` for
the whole table. -/
def nutrientValuesRegexInitOf (units : List (String × List String)) :
    Option (List (String × OCRRegex ValueRegex)) :=
  units.mapM (fun ku =>
    (List.lookup ku.1 NUTRIENT_MENTION).map (fun ms =>
      (ku.1, ⟨generate_nutrient_regex ms ku.2, .full_text_contiguous, true⟩)))

/-- `NUTRIENT_VALUES_REGEX` before the `getD`: the comprehension over
`NUTRIENT_UNITS.items()`. -/
def nutrientValuesRegexInit : Option (List (String × OCRRegex ValueRegex)) :=
  nutrientValuesRegexInitOf NUTRIENT_UNITS

/-- `NUTRIENT_VALUES_REGEX` (nutrient.py lines 126-133). -/
def NUTRIENT_VALUES_REGEX : List (String × OCRRegex ValueRegex) :=
  nutrientValuesRegexInit.getD []

/-- `NUTRIENT_MENTIONS_REGEX` (nutrient.py lines 135-142). -/
def NUTRIENT_MENTIONS_REGEX : List (String × OCRRegex Regex) :=
  NUTRIENT_MENTION.map (fun km =>
    (km.1, ⟨generate_nutrient_mention_regex km.2, .full_text_contiguous, true⟩))

/-- Match of the compiled mention pattern `(?<!\w)(names)(?!\w)` at
position `pos` of `s`: the look-behind, then the first (highest-priority)
split of the body whose look-ahead succeeds — Python's chosen match.
Returns the consumed characters (group 0). -/
def mentionMatchAt (R : Regex) (s : List Char) (pos : Nat) : Option (List Char) :=
  if prevOk s pos then
    (((mmatch R (s.drop pos)).filter (fun p => nextOk p.2)).map (fun p => p.1)).head?
  else none

/-- The three captured pieces of a value match: group 0 (the whole match),
group 2 (the number) and group 3 (the unit). -/
structure VParts where
  whole : List Char
  num : List Char
  unitTok : List Char
deriving DecidableEq, Repr

/-- Match of the compiled value pattern at position `pos` of `s`: the
look-behind, then mention, separator, number, space and unit pieces in
backtracking priority order, keeping the first combination whose final
look-ahead succeeds. -/
def valueMatchAt (vr : ValueRegex) (s : List Char) (pos : Nat) : Option VParts :=
  if prevOk s pos then
    ((mmatch vr.mention (s.drop pos)).flatMap (fun m =>
      (mmatch vr.sep m.2).flatMap (fun sp =>
        (mmatch vr.number sp.2).flatMap (fun n =>
          (mmatch vr.space2 n.2).flatMap (fun sp2 =>
            (mmatch vr.unitRe sp2.2).filterMap (fun u =>
              if nextOk u.2 then
                some ⟨m.1 ++ sp.1 ++ n.1 ++ sp2.1 ++ u.1, n.1, u.1⟩
              else none)))))).head?
  else none

/-- `re.finditer` scanning loop for the mention pattern: leftmost match
first, scanning resumes right after each match (a zero-width match would
advance by one, as in Python); `fuel` bounds the loop. -/
def mentionFindAux (R : Regex) (s : List Char) : Nat → Nat → List (Nat × List Char)
  | 0, _ => []
  | fuel + 1, pos =>
      if pos ≤ s.length then
        match mentionMatchAt R s pos with
        | some u => (pos, u) :: mentionFindAux R s fuel (pos + max u.length 1)
        | none => mentionFindAux R s fuel (pos + 1)
      else []

/-- `re.finditer` for a compiled mention pattern over `s`: the list of
(start, group 0) pairs in left-to-right order. -/
def mentionFinditer (R : Regex) (s : List Char) : List (Nat × List Char) :=
  mentionFindAux R s (s.length + 1) 0

/-- `re.finditer` scanning loop for the value pattern. -/
def valueFindAux (vr : ValueRegex) (s : List Char) : Nat → Nat → List (Nat × VParts)
  | 0, _ => []
  | fuel + 1, pos =>
      if pos ≤ s.length then
        match valueMatchAt vr s pos with
        | some p => (pos, p) :: valueFindAux vr s fuel (pos + max p.whole.length 1)
        | none => valueFindAux vr s fuel (pos + 1)
      else []

/-- `re.finditer` for a compiled value pattern over `s`. -/
def valueFinditer (vr : ValueRegex) (s : List Char) : List (Nat × VParts) :=
  valueFindAux vr s (s.length + 1) 0

/-- One entry of the per-kind match list of `find_nutrient_values`:
`{"raw": group 0, "nutrient": kind, "value": group 2 with "," → ".",
"unit": group 3}`. -/
structure ValueMatch where
  raw : List Char
  nutrient : String
  value : List Char
  unit : List Char
deriving DecidableEq, Repr

/-- One entry of the per-kind match list of `find_nutrient_mentions`:
`{"raw": group 0, "span": [start, end]}`. -/
structure MentionMatch where
  raw : List Char
  span : Nat × Nat
deriving DecidableEq, Repr

/-- The envelope `{"nutrients": ..., "version": ...}` of
`find_nutrient_values`; the mapping is in key insertion order. -/
structure ValuesEnvelope where
  nutrients : List (String × List ValueMatch)
  version : String
deriving DecidableEq, Repr

/-- The envelope `{"mentions": ..., "version": ...}` of
`find_nutrient_mentions`. -/
structure MentionsEnvelope where
  mentions : List (String × List MentionMatch)
  version : String
deriving DecidableEq, Repr

/-- `.replace(",", ".")`, per character. -/
def commaToDot (c : Char) : Char := if c = ',' then '.' else c

/-- Builds the value-match record of nutrient.py lines 158-165. -/
def mkValueMatch (kind : String) (p : Nat × VParts) : ValueMatch :=
  { raw := p.2.whole, nutrient := kind,
    value := p.2.num.map commaToDot, unit := p.2.unitTok }

/-- Builds the mention-match record of nutrient.py lines 184-186
(`match.span()` is `(start, start + length of group 0)`). -/
def mkMentionMatch (p : Nat × List Char) : MentionMatch :=
  { raw := p.2, span := (p.1, p.1 + p.2.length) }

/-- The inner per-kind loop of `find_nutrient_values`: fetch the text via
`get_text`, skip when empty, else scan all matches. -/
def kindValueMatches (orx : OCRRegex ValueRegex) (content : List Char) : List (Nat × VParts) :=
  let text := get_text content orx
  if text.isEmpty then [] else valueFinditer orx.regex text

/-- The `nutrients` mapping accumulated by the loop of
`find_nutrient_values`: per kind in `NUTRIENT_VALUES_REGEX` order, a key is
inserted exactly when the kind's match list is non-empty (the
`setdefault`/append accumulation), holding that list in discovery order. -/
def valuesMapping (content : List Char) : List (String × List ValueMatch) :=
  NUTRIENT_VALUES_REGEX.filterMap (fun kr =>
    let ms := (kindValueMatches kr.2 content).map (mkValueMatch kr.1)
    if ms.isEmpty then none else some (kr.1, ms))

/-- `find_nutrient_values` (nutrient.py lines 145-170): the non-empty
mapping is wrapped with `EXTRACTOR_VERSION`, else the result is `[]`. -/
def find_nutrient_values (content : List Char) : List ValuesEnvelope :=
  if (valuesMapping content).isEmpty then []
  else [⟨valuesMapping content, EXTRACTOR_VERSION⟩]

/-- The inner per-kind loop of `find_nutrient_mentions`. -/
def kindMentionMatches (orx : OCRRegex Regex) (content : List Char) : List (Nat × List Char) :=
  let text := get_text content orx
  if text.isEmpty then [] else mentionFinditer orx.regex text

/-- The `nutrients` mapping accumulated by the loop of
`find_nutrient_mentions`. -/
def mentionsMapping (content : List Char) : List (String × List MentionMatch) :=
  NUTRIENT_MENTIONS_REGEX.filterMap (fun kr =>
    let ms := (kindMentionMatches kr.2 content).map mkMentionMatch
    if ms.isEmpty then none else some (kr.1, ms))

/-- `find_nutrient_mentions` (nutrient.py lines 173-191). -/
def find_nutrient_mentions (content : List Char) : List MentionsEnvelope :=
  if (mentionsMapping content).isEmpty then []
  else [⟨mentionsMapping content, EXTRACTOR_VERSION⟩]

/-- The accumulation loop of `batch_insert` (models.py lines 19-34) over
the remaining `data`, carrying the Python locals `rows` and `inserts` and
the trace `execs` of the chunks passed to `insert_many(...).execute()`. -/
def batchAux {α : Type} (batch_size : Nat) :
    List α → Nat → List α → List (List α) → Nat × List (List α)
  | [], rows, inserts, execs =>
      if inserts.isEmpty then (rows, execs) else (rows, execs ++ [inserts])
  | item :: rest, rows, inserts, execs =>
      let inserts2 := inserts ++ [item]
      let rows2 := rows + 1
      if rows2 % batch_size = 0 then batchAux batch_size rest rows2 [] (execs ++ [inserts2])
      else batchAux batch_size rest rows2 inserts2 execs

/-- `batch_insert` (models.py lines 19-34): returns `rows` and the ordered
trace of inserted chunks. -/
def batch_insert {α : Type} (batch_size : Nat) (data : List α) : Nat × List (List α) :=
  batchAux batch_size data 0 [] []

/-! ### Lemmas about the matcher -/

/-- Every split enumerated by `starSplits` splits the input. -/
theorem mem_starSplits_append {cs s u r : List Char}
    (h : (u, r) ∈ starSplits cs s) : s = u ++ r := by
  induction s generalizing u r with
  | nil =>
      simp only [starSplits, List.mem_singleton, Prod.mk.injEq] at h
      simp [h.1, h.2]
  | cons c rest ih =>
      simp only [starSplits] at h
      by_cases hc : c ∈ cs
      · simp only [if_pos hc, List.mem_append, List.mem_map, List.mem_singleton,
          Prod.mk.injEq] at h
        rcases h with ⟨⟨u', r'⟩, hm, hu, hr⟩ | ⟨hu, hr⟩
        · subst hu; subst hr; simpa using congrArg (c :: ·) (ih hm)
        · simp [hu, hr]
      · simp only [if_neg hc, List.mem_singleton, Prod.mk.injEq] at h
        simp [h.1, h.2]

/-- Every character consumed by `starSplits cs` belongs to `cs`. -/
theorem mem_starSplits_chars {cs s u r : List Char}
    (h : (u, r) ∈ starSplits cs s) : ∀ c ∈ u, c ∈ cs := by
  induction s generalizing u r with
  | nil =>
      simp only [starSplits, List.mem_singleton, Prod.mk.injEq] at h
      simp [h.1]
  | cons c rest ih =>
      simp only [starSplits] at h
      by_cases hc : c ∈ cs
      · simp only [if_pos hc, List.mem_append, List.mem_map, List.mem_singleton,
          Prod.mk.injEq] at h
        rcases h with ⟨⟨u', r'⟩, hm, hu, hr⟩ | ⟨hu, hr⟩
        · subst hu
          intro x hx
          rcases List.mem_cons.mp hx with rfl | hx
          · exact hc
          · exact ih hm x hx
        · simp [hu]
      · simp only [if_neg hc, List.mem_singleton, Prod.mk.injEq] at h
        simp [h.1]

/-- Every split enumerated by `mmatch` splits the input. -/
theorem mem_mmatch_append {R : Regex} {s u r : List Char}
    (h : (u, r) ∈ mmatch R s) : s = u ++ r := by
  induction R generalizing s u r with
  | eps =>
      simp only [mmatch, List.mem_singleton, Prod.mk.injEq] at h
      simp [h.1, h.2]
  | cls cs =>
      cases s with
      | nil => simp [mmatch] at h
      | cons c rest =>
          simp only [mmatch] at h
          by_cases hc : c ∈ cs
          · simp only [if_pos hc, List.mem_singleton, Prod.mk.injEq] at h
            simp [h.1, h.2]
          · simp [if_neg hc] at h
  | cat a b iha ihb =>
      simp only [mmatch, List.mem_flatMap, List.mem_map, Prod.exists, Prod.mk.injEq] at h
      obtain ⟨u1, r1, h1, u2, r2, h2, hu, hr⟩ := h
      subst hu; subst hr
      rw [iha h1, ihb h2, List.append_assoc]
  | alt a b iha ihb =>
      simp only [mmatch, List.mem_append] at h
      rcases h with h | h
      · exact iha h
      · exact ihb h
  | opt a iha =>
      simp only [mmatch, List.mem_append, List.mem_singleton, Prod.mk.injEq] at h
      rcases h with h | ⟨hu, hr⟩
      · exact iha h
      · simp [hu, hr]
  | starCls cs => exact mem_starSplits_append h

/-- Inversion for `mmatch` on a character class. -/
theorem mem_mmatch_cls {cs s u r : List Char}
    (h : (u, r) ∈ mmatch (.cls cs) s) : ∃ c, c ∈ cs ∧ u = [c] := by
  cases s with
  | nil => simp [mmatch] at h
  | cons c rest =>
      simp only [mmatch] at h
      by_cases hc : c ∈ cs
      · simp only [if_pos hc, List.mem_singleton, Prod.mk.injEq] at h
        exact ⟨c, hc, h.1⟩
      · simp [if_neg hc] at h

/-- Inversion for `mmatch` on a concatenation. -/
theorem mem_mmatch_cat {a b : Regex} {s u r : List Char}
    (h : (u, r) ∈ mmatch (.cat a b) s) :
    ∃ u1 r1 u2, (u1, r1) ∈ mmatch a s ∧ (u2, r) ∈ mmatch b r1 ∧ u = u1 ++ u2 := by
  simp only [mmatch, List.mem_flatMap, List.mem_map, Prod.exists, Prod.mk.injEq] at h
  obtain ⟨u1, r1, h1, u2, r2, h2, hu, hr⟩ := h
  subst hr
  exact ⟨u1, r1, u2, h1, h2, hu.symm⟩

/-- Inversion for `mmatch` on an option. -/
theorem mem_mmatch_opt {a : Regex} {s u r : List Char}
    (h : (u, r) ∈ mmatch (.opt a) s) :
    (u, r) ∈ mmatch a s ∨ (u = [] ∧ r = s) := by
  simp only [mmatch, List.mem_append, List.mem_singleton, Prod.mk.injEq] at h
  exact h

/-! ### The shape of normalized decimal strings -/

/-- Tail of the check for `^[0-9]+\.?[0-9]*$` after the first digit. -/
def decTail : List Char → Bool
  | [] => true
  | c :: rest => if c = '.' then rest.all (· ∈ digitCls) else (c ∈ digitCls && decTail rest)

/-- The check for the pattern `^[0-9]+\.?[0-9]*$`: one or more digits, an
optional dot, zero or more digits. -/
def isNormalizedDecimal : List Char → Bool
  | [] => false
  | c :: rest => c ∈ digitCls && decTail rest

/-- No digit is a comma or a dot. -/
theorem digit_ne_comma_dot : digitCls.all (fun c => !(c == ',') && !(c == '.')) = true := by
  decide

/-- A digit is unchanged by the comma-to-dot substitution. -/
theorem commaToDot_digit {c : Char} (h : c ∈ digitCls) : commaToDot c = c := by
  have := List.all_eq_true.mp digit_ne_comma_dot c h
  simp only [Bool.and_eq_true, Bool.not_eq_true', beq_eq_false_iff_ne] at this
  simp [commaToDot, this.1]

/-- `decTail` skips over a leading run of digits. -/
theorem decTail_append_digits {a t : List Char} (h : ∀ c ∈ a, c ∈ digitCls) :
    decTail (a ++ t) = decTail t := by
  induction a with
  | nil => rfl
  | cons c a ih =>
      have hc : c ∈ digitCls := h c (List.mem_cons_self c a)
      have hdot : ¬ c = '.' := by
        have := List.all_eq_true.mp digit_ne_comma_dot c hc
        simp only [Bool.and_eq_true, Bool.not_eq_true', beq_eq_false_iff_ne] at this
        exact this.2
      simp only [List.cons_append, decTail, if_neg hdot, hc]
      simpa using ih (fun x hx => h x (List.mem_cons_of_mem c hx))

/-- `decTail` accepts a pure digit string. -/
theorem decTail_digits {a : List Char} (h : ∀ c ∈ a, c ∈ digitCls) : decTail a = true := by
  have := decTail_append_digits (t := []) h
  simpa using this

/-- The captured group of `numberRe` becomes a normalized decimal after the
comma-to-dot substitution. -/
theorem mem_mmatch_numberRe {s u r : List Char}
    (h : (u, r) ∈ mmatch numberRe s) :
    isNormalizedDecimal (u.map commaToDot) = true := by
  obtain ⟨u1, r1, u2, h1, h2, hu⟩ := mem_mmatch_cat h
  obtain ⟨d1, rd, ds, hd1, hds, hu1⟩ := mem_mmatch_cat h1
  obtain ⟨c, hc, hd⟩ := mem_mmatch_cls hd1
  have hdsd : ∀ x ∈ ds, x ∈ digitCls := mem_starSplits_chars hds
  obtain ⟨b, rb, t2, hb, ht2, hu2⟩ := mem_mmatch_cat h2
  have ht2d : ∀ x ∈ t2, x ∈ digitCls := mem_starSplits_chars ht2
  have hbshape : b = [] ∨ b = [','] ∨ b = ['.'] := by
    rcases mem_mmatch_opt hb with hbm | ⟨hbe, _⟩
    · obtain ⟨c', hc', hbe⟩ := mem_mmatch_cls hbm
      subst hbe
      rcases List.mem_cons.mp hc' with rfl | hc'
      · exact Or.inr (Or.inl rfl)
      · simp only [List.mem_singleton] at hc'
        exact Or.inr (Or.inr (by rw [hc']))
    · exact Or.inl hbe
  subst hu; subst hu1; subst hu2; subst hd
  have hmap1 : ∀ x ∈ ds.map commaToDot, x ∈ digitCls := by
    intro x hx
    obtain ⟨y, hy, hxy⟩ := List.mem_map.mp hx
    rw [← hxy, commaToDot_digit (hdsd y hy)]
    exact hdsd y hy
  have hmap2 : ∀ x ∈ t2.map commaToDot, x ∈ digitCls := by
    intro x hx
    obtain ⟨y, hy, hxy⟩ := List.mem_map.mp hx
    rw [← hxy, commaToDot_digit (ht2d y hy)]
    exact ht2d y hy
  have hall2 : (t2.map commaToDot).all (· ∈ digitCls) = true :=
    List.all_eq_true.mpr (fun x hx => decide_eq_true (hmap2 x hx))
  have htail2 : decTail (b.map commaToDot ++ t2.map commaToDot) = true := by
    rcases hbshape with rfl | rfl | rfl
    · simpa using decTail_digits hmap2
    · have hcc : commaToDot ',' = '.' := by simp [commaToDot]
      simp only [List.map_cons, List.map_nil, hcc, List.cons_append, List.nil_append,
        decTail, if_pos rfl]
      exact hall2
    · have hcc : commaToDot '.' = '.' := by simp [commaToDot]
      simp only [List.map_cons, List.map_nil, hcc, List.cons_append, List.nil_append,
        decTail, if_pos rfl]
      exact hall2
  have hcd : commaToDot c = c := commaToDot_digit hc
  have hcb : (decide (c ∈ digitCls)) = true := decide_eq_true hc
  show isNormalizedDecimal (([c] ++ ds ++ (b ++ t2)).map commaToDot) = true
  simp only [List.map_append, List.map_cons, List.map_nil, List.cons_append, List.nil_append,
    isNormalizedDecimal, hcd, hcb, Bool.true_and]
  rw [decTail_append_digits hmap1]
  exact htail2

/-! ### Inversion of the match-at-position functions -/

/-- What a successful mention match at a position means: the look-behind
held, the body consumed `u`, and the look-ahead held on the rest. -/
theorem mentionMatchAt_some {R : Regex} {s u : List Char} {pos : Nat}
    (h : mentionMatchAt R s pos = some u) :
    prevOk s pos = true ∧
    ∃ r, (u, r) ∈ mmatch R (s.drop pos) ∧ nextOk r = true := by
  unfold mentionMatchAt at h
  by_cases hp : prevOk s pos
  · refine ⟨hp, ?_⟩
    rw [if_pos hp] at h
    have hm := List.mem_of_mem_head? (Option.mem_def.mpr h)
    obtain ⟨⟨u', r⟩, hmem, hu⟩ := List.mem_map.mp hm
    have := List.mem_filter.mp hmem
    subst hu
    exact ⟨r, this.1, by simpa using this.2⟩
  · rw [if_neg hp] at h
    exact absurd h (by simp)

/-- What a successful value match at a position means: the look-behind
held, the five pieces matched in order, the look-ahead held after the unit,
and the captured groups are the number and unit pieces. -/
theorem valueMatchAt_some {vr : ValueRegex} {s : List Char} {pos : Nat} {p : VParts}
    (h : valueMatchAt vr s pos = some p) :
    prevOk s pos = true ∧
    ∃ m r1 sp r2 n r3 sp2 r4 u r5,
      (m, r1) ∈ mmatch vr.mention (s.drop pos) ∧
      (sp, r2) ∈ mmatch vr.sep r1 ∧
      (n, r3) ∈ mmatch vr.number r2 ∧
      (sp2, r4) ∈ mmatch vr.space2 r3 ∧
      (u, r5) ∈ mmatch vr.unitRe r4 ∧
      nextOk r5 = true ∧
      p = ⟨m ++ sp ++ n ++ sp2 ++ u, n, u⟩ := by
  unfold valueMatchAt at h
  by_cases hp : prevOk s pos
  · refine ⟨hp, ?_⟩
    rw [if_pos hp] at h
    have hm := List.mem_of_mem_head? (Option.mem_def.mpr h)
    simp only [List.mem_flatMap, List.mem_filterMap] at hm
    obtain ⟨⟨m, r1⟩, h1, ⟨sp, r2⟩, h2, ⟨n, r3⟩, h3, ⟨sp2, r4⟩, h4, ⟨u, r5⟩, h5, hif⟩ := hm
    by_cases hn : nextOk r5
    · rw [if_pos hn] at hif
      exact ⟨m, r1, sp, r2, n, r3, sp2, r4, u, r5, h1, h2, h3, h4, h5, hn,
        (Option.some.inj hif).symm⟩
    · rw [if_neg hn] at hif
      exact absurd hif (by simp)
  · rw [if_neg hp] at h
    exact absurd h (by simp)

/-- The whole consumed span of a value match splits the suffix at the
match position. -/
theorem valueMatchAt_split {vr : ValueRegex} {s : List Char} {pos : Nat} {p : VParts}
    (h : valueMatchAt vr s pos = some p) :
    ∃ r, s.drop pos = p.whole ++ r ∧ nextOk r = true := by
  obtain ⟨-, m, r1, sp, r2, n, r3, sp2, r4, u, r5, h1, h2, h3, h4, h5, hn, hpeq⟩ :=
    valueMatchAt_some h
  refine ⟨r5, ?_, hn⟩
  have e1 := mem_mmatch_append h1
  have e2 := mem_mmatch_append h2
  have e3 := mem_mmatch_append h3
  have e4 := mem_mmatch_append h4
  have e5 := mem_mmatch_append h5
  subst hpeq
  simp only [e1, e2, e3, e4, e5, List.append_assoc]

/-! ### Soundness of the finditer scans -/

/-- Every entry of the mention scan is a successful match at its
position. -/
theorem mem_mentionFindAux {R : Regex} {s : List Char} {fuel pos : Nat}
    {q : Nat × List Char} (h : q ∈ mentionFindAux R s fuel pos) :
    mentionMatchAt R s q.1 = some q.2 := by
  induction fuel generalizing pos with
  | zero => simp [mentionFindAux] at h
  | succ fuel ih =>
      unfold mentionFindAux at h
      by_cases hpos : pos ≤ s.length
      · rw [if_pos hpos] at h
        cases hm : mentionMatchAt R s pos with
        | some u =>
            rw [hm] at h
            rcases List.mem_cons.mp h with rfl | h2
            · exact hm
            · exact ih h2
        | none =>
            rw [hm] at h
            exact ih h
      · rw [if_neg hpos] at h
        exact absurd h (by simp)

/-- Every entry of `mentionFinditer` is a successful match at its
position. -/
theorem mem_mentionFinditer {R : Regex} {s : List Char} {q : Nat × List Char}
    (h : q ∈ mentionFinditer R s) :
    mentionMatchAt R s q.1 = some q.2 :=
  mem_mentionFindAux h

/-- Every entry of the value scan is a successful match at its
position. -/
theorem mem_valueFindAux {vr : ValueRegex} {s : List Char} {fuel pos : Nat}
    {q : Nat × VParts} (h : q ∈ valueFindAux vr s fuel pos) :
    valueMatchAt vr s q.1 = some q.2 := by
  induction fuel generalizing pos with
  | zero => simp [valueFindAux] at h
  | succ fuel ih =>
      unfold valueFindAux at h
      by_cases hpos : pos ≤ s.length
      · rw [if_pos hpos] at h
        cases hm : valueMatchAt vr s pos with
        | some u =>
            rw [hm] at h
            rcases List.mem_cons.mp h with rfl | h2
            · exact hm
            · exact ih h2
        | none =>
            rw [hm] at h
            exact ih h
      · rw [if_neg hpos] at h
        exact absurd h (by simp)

/-- Every entry of `valueFinditer` is a successful match at its
position. -/
theorem mem_valueFinditer {vr : ValueRegex} {s : List Char} {q : Nat × VParts}
    (h : q ∈ valueFinditer vr s) :
    valueMatchAt vr s q.1 = some q.2 :=
  mem_valueFindAux h

/-! ### Structure of the result envelopes -/

/-- An envelope returned by `find_nutrient_values` carries the version tag
and the non-empty accumulated mapping. -/
theorem find_values_elim {content : List Char} {env : ValuesEnvelope}
    (h : env ∈ find_nutrient_values content) :
    env.version = EXTRACTOR_VERSION ∧ env.nutrients = valuesMapping content ∧
      env.nutrients ≠ [] := by
  unfold find_nutrient_values at h
  by_cases he : (valuesMapping content).isEmpty
  · rw [if_pos he] at h
    exact absurd h (by simp)
  · rw [if_neg he] at h
    rcases List.mem_singleton.mp h with rfl
    exact ⟨rfl, rfl, by simpa [List.isEmpty_iff] using he⟩

/-- An envelope returned by `find_nutrient_mentions` carries the version
tag and the non-empty accumulated mapping. -/
theorem find_mentions_elim {content : List Char} {env : MentionsEnvelope}
    (h : env ∈ find_nutrient_mentions content) :
    env.version = EXTRACTOR_VERSION ∧ env.mentions = mentionsMapping content ∧
      env.mentions ≠ [] := by
  unfold find_nutrient_mentions at h
  by_cases he : (mentionsMapping content).isEmpty
  · rw [if_pos he] at h
    exact absurd h (by simp)
  · rw [if_neg he] at h
    rcases List.mem_singleton.mp h with rfl
    exact ⟨rfl, rfl, by simpa [List.isEmpty_iff] using he⟩

/-- A key of the values mapping is a compiled kind whose match list is the
kind's non-empty scan output. -/
theorem mem_valuesMapping {content : List Char} {k : String} {ms : List ValueMatch}
    (h : (k, ms) ∈ valuesMapping content) :
    ∃ orx, (k, orx) ∈ NUTRIENT_VALUES_REGEX ∧
      ms = (kindValueMatches orx content).map (mkValueMatch k) ∧ ms ≠ [] := by
  obtain ⟨kr, hkr, hif⟩ := List.mem_filterMap.mp h
  simp only at hif
  by_cases he : ((kindValueMatches kr.2 content).map (mkValueMatch kr.1)).isEmpty
  · rw [if_pos he] at hif
    exact absurd hif (by simp)
  · rw [if_neg he] at hif
    obtain ⟨hk, hms⟩ := Prod.mk.injEq .. ▸ Option.some.inj hif
    subst hk
    exact ⟨kr.2, by simpa using hkr, hms.symm,
      by rw [← hms]; simpa [List.isEmpty_iff] using he⟩

/-- Conversely, every compiled kind with a non-empty scan output appears in
the values mapping with exactly that list. -/
theorem mem_valuesMapping_intro {content : List Char} {k : String} {orx : OCRRegex ValueRegex}
    (hk : (k, orx) ∈ NUTRIENT_VALUES_REGEX)
    (hne : (kindValueMatches orx content).map (mkValueMatch k) ≠ []) :
    (k, (kindValueMatches orx content).map (mkValueMatch k)) ∈ valuesMapping content := by
  refine List.mem_filterMap.mpr ⟨(k, orx), hk, ?_⟩
  simp only
  rw [if_neg (by simpa [List.isEmpty_iff] using hne)]

/-- A key of the mentions mapping is a compiled kind whose match list is
the kind's non-empty scan output. -/
theorem mem_mentionsMapping {content : List Char} {k : String} {ms : List MentionMatch}
    (h : (k, ms) ∈ mentionsMapping content) :
    ∃ orx, (k, orx) ∈ NUTRIENT_MENTIONS_REGEX ∧
      ms = (kindMentionMatches orx content).map mkMentionMatch ∧ ms ≠ [] := by
  obtain ⟨kr, hkr, hif⟩ := List.mem_filterMap.mp h
  simp only at hif
  by_cases he : ((kindMentionMatches kr.2 content).map mkMentionMatch).isEmpty
  · rw [if_pos he] at hif
    exact absurd hif (by simp)
  · rw [if_neg he] at hif
    obtain ⟨hk, hms⟩ := Prod.mk.injEq .. ▸ Option.some.inj hif
    subst hk
    exact ⟨kr.2, by simpa using hkr, hms.symm,
      by rw [← hms]; simpa [List.isEmpty_iff] using he⟩

/-- Conversely, every compiled kind with a non-empty scan output appears in
the mentions mapping with exactly that list. -/
theorem mem_mentionsMapping_intro {content : List Char} {k : String} {orx : OCRRegex Regex}
    (hk : (k, orx) ∈ NUTRIENT_MENTIONS_REGEX)
    (hne : (kindMentionMatches orx content).map mkMentionMatch ≠ []) :
    (k, (kindMentionMatches orx content).map mkMentionMatch) ∈ mentionsMapping content := by
  refine List.mem_filterMap.mpr ⟨(k, orx), hk, ?_⟩
  simp only
  rw [if_neg (by simpa [List.isEmpty_iff] using hne)]

/-- The values result is empty exactly when every kind's scan is empty. -/
theorem find_values_eq_nil_iff (content : List Char) :
    find_nutrient_values content = [] ↔
      ∀ kr ∈ NUTRIENT_VALUES_REGEX, kindValueMatches kr.2 content = [] := by
  unfold find_nutrient_values
  by_cases he : (valuesMapping content).isEmpty
  · rw [if_pos he]
    simp only [true_iff]
    intro kr hkr
    have hnil : valuesMapping content = [] := List.isEmpty_iff.mp he
    have := List.filterMap_eq_nil_iff.mp hnil kr hkr
    simp only at this
    by_cases h2 : ((kindValueMatches kr.2 content).map (mkValueMatch kr.1)).isEmpty
    · simpa using List.map_eq_nil_iff.mp (List.isEmpty_iff.mp h2)
    · rw [if_neg h2] at this
      exact absurd this (by simp)
  · rw [if_neg he]
    simp only [List.cons_ne_self, false_iff]
    intro hall
    refine he (List.isEmpty_iff.mpr (List.filterMap_eq_nil_iff.mpr ?_))
    intro kr hkr
    simp only
    rw [hall kr hkr]
    simp

/-- The mentions result is empty exactly when every kind's scan is
empty. -/
theorem find_mentions_eq_nil_iff (content : List Char) :
    find_nutrient_mentions content = [] ↔
      ∀ kr ∈ NUTRIENT_MENTIONS_REGEX, kindMentionMatches kr.2 content = [] := by
  unfold find_nutrient_mentions
  by_cases he : (mentionsMapping content).isEmpty
  · rw [if_pos he]
    simp only [true_iff]
    intro kr hkr
    have hnil : mentionsMapping content = [] := List.isEmpty_iff.mp he
    have := List.filterMap_eq_nil_iff.mp hnil kr hkr
    simp only at this
    by_cases h2 : ((kindMentionMatches kr.2 content).map mkMentionMatch).isEmpty
    · simpa using List.map_eq_nil_iff.mp (List.isEmpty_iff.mp h2)
    · rw [if_neg h2] at this
      exact absurd this (by simp)
  · rw [if_neg he]
    simp only [List.cons_ne_self, false_iff]
    intro hall
    refine he (List.isEmpty_iff.mpr (List.filterMap_eq_nil_iff.mpr ?_))
    intro kr hkr
    simp only
    rw [hall kr hkr]
    simp

/-! ### Facts about the concrete compiled tables -/

/-- Every compiled mention matcher carries the lowercase flag. -/
theorem mentions_regex_lowercase :
    NUTRIENT_MENTIONS_REGEX.all (fun kr => kr.2.lowercase) = true := by rfl

/-- Every compiled value matcher carries the lowercase flag and the number
piece `[0-9]+[,.]?[0-9]*`. -/
theorem values_regex_number :
    NUTRIENT_VALUES_REGEX.all
      (fun kr => kr.2.lowercase && (kr.2.regex.number == numberRe)) = true := by rfl

/-- Every key of the compiled value table is a unit-catalog kind, and never
the section-header kind. -/
theorem values_regex_keys :
    ∀ kr ∈ NUTRIENT_VALUES_REGEX,
      kr.1 ∈ NUTRIENT_UNITS.map Prod.fst ∧ kr.1 ≠ "nutrition_values" := by decide

/-! ### The claims -/

/-- The value matcher as the spec's words build it: a union of the kind's
mention fragments, an optional separator `:` or `-` optionally surrounded
by spaces, a captured number `digits[,.]?digits*`, an optional space, and a
captured union of the kind's unit tokens.  The word-boundary anchors the
spec describes (`(?<!\w)` before, `(?!\w)` after) are applied around these
pieces by `valueMatchAt`, identically for this matcher and the compiled
one. -/
def specValueMatcher (patterns : List (Regex × List String)) (units : List String) :
    ValueRegex :=
  { mention := altList (patterns.map Prod.fst),
    sep := .cat (.opt (.ch ' ')) (.opt (.cat (.cls [':', '-']) (.opt (.ch ' ')))),
    number := .cat (.cat (.cls digitCls) (.starCls digitCls))
                   (.cat (.opt (.cls [',', '.'])) (.starCls digitCls)),
    space2 := .opt (.ch ' '),
    unitRe := altList (units.map rstr) }

/-- C1: for every nutrient kind in the unit catalog, the compiled value
matcher equals the matcher built from the spec's description (mention-
fragment union, optional `:`/`-` separator with optional spaces, captured
`digits[,.]?digits*` number, optional space, captured unit-token union);
both are run under the same `(?<!\w)`/`(?!\w)` anchors by
`valueMatchAt`. -/
theorem C1_value_matcher_matches_spec :
    (NUTRIENT_UNITS.all (fun ku =>
      match List.lookup ku.1 NUTRIENT_VALUES_REGEX, List.lookup ku.1 NUTRIENT_MENTION with
      | some orx, some ms => orx.regex == specValueMatcher ms ku.2
      | _, _ => false)) = true := by rfl

/-- C6: both extraction functions return at most one envelope, and any
returned envelope carries the fixed extractor-version string "1". -/
theorem C6_envelope_shape (content : List Char) :
    (find_nutrient_values content).length ≤ 1 ∧
    (find_nutrient_mentions content).length ≤ 1 ∧
    (∀ env ∈ find_nutrient_values content, env.version = "1") ∧
    (∀ env ∈ find_nutrient_mentions content, env.version = "1") := by
  refine ⟨?_, ?_, ?_, ?_⟩
  · unfold find_nutrient_values
    split <;> simp
  · unfold find_nutrient_mentions
    split <;> simp
  · intro env h
    exact (find_values_elim h).1
  · intro env h
    exact (find_mentions_elim h).1

/-- Witness for C6 at the concrete input "sel 1g". -/
theorem C6_envelope_shape_witness :
    (⟨[("salt", [⟨"sel 1g".data, "salt", "1".data, "g".data⟩])], "1"⟩ : ValuesEnvelope).version
      = "1" :=
  (C6_envelope_shape "sel 1g".data).2.2.1
    ⟨[("salt", [⟨"sel 1g".data, "salt", "1".data, "g".data⟩])], "1"⟩ (by decide)

/-- C7: every kind of the unit catalog is present in the mention
dictionary, so the module-initialization build of the value table succeeds;
and for any catalog holding a kind absent from the dictionary, that build
fails (returns `none`) at initialization, before any extraction call. -/
theorem C7_units_in_mentions :
    (NUTRIENT_UNITS.all (fun ku => (List.lookup ku.1 NUTRIENT_MENTION).isSome)) = true ∧
    nutrientValuesRegexInit.isSome = true ∧
    (∀ units : List (String × List String),
      (∃ ku ∈ units, List.lookup ku.1 NUTRIENT_MENTION = none) →
      nutrientValuesRegexInitOf units = none) := by
  refine ⟨rfl, rfl, ?_⟩
  intro units h
  obtain ⟨ku, hmem, hnone⟩ := h
  induction units with
  | nil => exact absurd hmem (by simp)
  | cons u us ih =>
      rw [nutrientValuesRegexInitOf, List.mapM_cons]
      rcases List.mem_cons.mp hmem with rfl | hmem2
      · rw [hnone]
        rfl
      · cases hu : (List.lookup u.1 NUTRIENT_MENTION).map (fun ms =>
            (u.1, (⟨generate_nutrient_regex ms u.2, .full_text_contiguous, true⟩ :
              OCRRegex ValueRegex))) with
        | none => rfl
        | some b =>
            have := ih hmem2
            rw [nutrientValuesRegexInitOf] at this
            rw [this]
            rfl

/-- Witness for C7's failure clause at a one-kind catalog whose kind is
absent from the mention dictionary. -/
theorem C7_units_in_mentions_witness :
    nutrientValuesRegexInitOf [("unknown_kind", ["g"])] = none :=
  C7_units_in_mentions.2.2 [("unknown_kind", ["g"])]
    ⟨("unknown_kind", ["g"]), by simp, by rfl⟩

/-- C8: the extraction functions are pure functions of the input text:
equal inputs give equal ordered results. -/
theorem C8_deterministic (c1 c2 : List Char) (h : c1 = c2) :
    find_nutrient_values c1 = find_nutrient_values c2 ∧
    find_nutrient_mentions c1 = find_nutrient_mentions c2 := by
  subst h
  exact ⟨rfl, rfl⟩

/-- Witness for C8 at a concrete input. -/
theorem C8_deterministic_witness :
    find_nutrient_values "sel 1g".data = find_nutrient_values "sel 1g".data ∧
    find_nutrient_mentions "sel 1g".data = find_nutrient_mentions "sel 1g".data :=
  C8_deterministic "sel 1g".data "sel 1g".data rfl

/-- C2: in a returned envelope, a kind is a key exactly when its match
list is non-empty (and the key holds that list); a returned mapping is
never empty; and the whole result is the empty sequence exactly when no
kind's scan found anything — for both extraction functions. -/
theorem C2_key_iff_nonempty (content : List Char) :
    (∀ env ∈ find_nutrient_values content, ∀ k ms, ((k, ms) ∈ env.nutrients ↔
      ∃ orx, (k, orx) ∈ NUTRIENT_VALUES_REGEX ∧
        ms = (kindValueMatches orx content).map (mkValueMatch k) ∧ ms ≠ [])) ∧
    (∀ env ∈ find_nutrient_values content, env.nutrients ≠ []) ∧
    (find_nutrient_values content = [] ↔
      ∀ kr ∈ NUTRIENT_VALUES_REGEX, kindValueMatches kr.2 content = []) ∧
    (∀ env ∈ find_nutrient_mentions content, ∀ k ms, ((k, ms) ∈ env.mentions ↔
      ∃ orx, (k, orx) ∈ NUTRIENT_MENTIONS_REGEX ∧
        ms = (kindMentionMatches orx content).map mkMentionMatch ∧ ms ≠ [])) ∧
    (∀ env ∈ find_nutrient_mentions content, env.mentions ≠ []) ∧
    (find_nutrient_mentions content = [] ↔
      ∀ kr ∈ NUTRIENT_MENTIONS_REGEX, kindMentionMatches kr.2 content = []) := by
  refine ⟨?_, ?_, find_values_eq_nil_iff content, ?_, ?_, find_mentions_eq_nil_iff content⟩
  · intro env he k ms
    constructor
    · intro hmem
      rw [(find_values_elim he).2.1] at hmem
      exact mem_valuesMapping hmem
    · rintro ⟨orx, hk, rfl, hne⟩
      rw [(find_values_elim he).2.1]
      exact mem_valuesMapping_intro hk hne
  · intro env he
    exact (find_values_elim he).2.2
  · intro env he k ms
    constructor
    · intro hmem
      rw [(find_mentions_elim he).2.1] at hmem
      exact mem_mentionsMapping hmem
    · rintro ⟨orx, hk, rfl, hne⟩
      rw [(find_mentions_elim he).2.1]
      exact mem_mentionsMapping_intro hk hne
  · intro env he
    exact (find_mentions_elim he).2.2

/-- Witness for C2: on a text matching nothing, both laws give the empty
result. -/
theorem C2_key_iff_nonempty_witness :
    find_nutrient_values "zzz".data = [] ∧ find_nutrient_mentions "zzz".data = [] :=
  ⟨(C2_key_iff_nonempty "zzz".data).2.2.1.mpr (by decide),
   (C2_key_iff_nonempty "zzz".data).2.2.2.2.2.mpr (by decide)⟩

/-- C9: every key of a returned values mapping is one of the unit
catalog's nine kinds (never "nutrition_values"), and each match record's
nutrient field equals its key. -/
theorem C9_values_keys (content : List Char) :
    ∀ env ∈ find_nutrient_values content, ∀ p ∈ env.nutrients,
      p.1 ∈ NUTRIENT_UNITS.map Prod.fst ∧ p.1 ≠ "nutrition_values" ∧
      ∀ m ∈ p.2, m.nutrient = p.1 := by
  intro env he p hp
  have hp' : (p.1, p.2) ∈ valuesMapping content := by
    rw [Prod.mk.eta, ← (find_values_elim he).2.1]
    exact hp
  obtain ⟨orx, hk, hms, -⟩ := mem_valuesMapping hp'
  have hkey := values_regex_keys (p.1, orx) hk
  refine ⟨hkey.1, hkey.2, ?_⟩
  intro m hm
  rw [hms] at hm
  obtain ⟨q, hq, rfl⟩ := List.mem_map.mp hm
  rfl

/-- Witness for C9 at the concrete input "sel 1g". -/
theorem C9_values_keys_witness :
    "salt" ∈ NUTRIENT_UNITS.map Prod.fst ∧ "salt" ≠ "nutrition_values" ∧
      ∀ m ∈ [(⟨"sel 1g".data, "salt", "1".data, "g".data⟩ : ValueMatch)],
        m.nutrient = "salt" :=
  C9_values_keys "sel 1g".data
    ⟨[("salt", [⟨"sel 1g".data, "salt", "1".data, "g".data⟩])], "1"⟩ (by decide)
    ("salt", [⟨"sel 1g".data, "salt", "1".data, "g".data⟩]) (by decide)

/-- C5: for every returned mention match, taking the searched (lowercased)
text at offsets `[start, end)` gives back exactly the raw matched
substring. -/
theorem C5_span_substring (content : List Char) :
    ∀ env ∈ find_nutrient_mentions content, ∀ p ∈ env.mentions, ∀ m ∈ p.2,
      ((pyLower content).drop m.span.1).take (m.span.2 - m.span.1) = m.raw := by
  intro env he p hp m hm
  have hp' : (p.1, p.2) ∈ mentionsMapping content := by
    rw [Prod.mk.eta, ← (find_mentions_elim he).2.1]
    exact hp
  obtain ⟨orx, hk, hms, -⟩ := mem_mentionsMapping hp'
  rw [hms] at hm
  obtain ⟨q, hq, rfl⟩ := List.mem_map.mp hm
  have hlc : orx.lowercase = true := by
    simpa using List.all_eq_true.mp mentions_regex_lowercase (p.1, orx) hk
  have htext : get_text content orx = pyLower content := by
    simp [get_text, hlc]
  simp only [kindMentionMatches, htext] at hq
  by_cases hemp : (pyLower content).isEmpty
  · rw [if_pos hemp] at hq
    exact absurd hq (by simp)
  · rw [if_neg hemp] at hq
    obtain ⟨-, r, hmm, -⟩ := mentionMatchAt_some (mem_mentionFinditer hq)
    have hsplit := mem_mmatch_append hmm
    show ((pyLower content).drop q.1).take (q.1 + q.2.length - q.1) = q.2
    rw [Nat.add_sub_cancel_left, hsplit, List.take_left]

/-- Witness for C5 at the concrete input "sel 1g". -/
theorem C5_span_substring_witness :
    ((pyLower "sel 1g".data).drop 0).take (3 - 0) = "sel".data :=
  C5_span_substring "sel 1g".data
    ⟨[("salt", [⟨"sel".data, (0, 3)⟩])], "1"⟩ (by decide)
    ("salt", [⟨"sel".data, (0, 3)⟩]) (by decide)
    ⟨"sel".data, (0, 3)⟩ (by decide)

/-- Reading of a successful look-behind: the character before the match
position, when there is one, is not a word character. -/
theorem prevOk_spec {s : List Char} {pos : Nat} (h : prevOk s pos = true) :
    ∀ c, (s.take pos).getLast? = some c → isWordChar c = false := by
  intro c hc
  unfold prevOk at h
  rw [hc] at h
  simpa using h

/-- Reading of a successful look-ahead: the first character of the rest,
when there is one, is not a word character. -/
theorem nextOk_spec {r : List Char} (h : nextOk r = true) :
    ∀ c, r.head? = some c → isWordChar c = false := by
  intro c hc
  cases r with
  | nil => simp at hc
  | cons x xs =>
      simp only [List.head?_cons, Option.some.injEq] at hc
      subst hc
      simpa [nextOk] using h

/-- A split of the suffix at `pos` locates the rest at `pos` plus the
consumed length. -/
theorem drop_of_split {s u r : List Char} {pos : Nat} (h : s.drop pos = u ++ r) :
    s.drop (pos + u.length) = r := by
  rw [← List.drop_drop, h, List.drop_left]

/-- C4: no mention fragment matches as a sub-token of a longer word: at
every match reported by `find_nutrient_mentions`, and at every match
scanned for `find_nutrient_values`, the character just before the match
start and the character at the match end are not word characters; in
particular the salt matcher finds nothing in "conseil d'utilisation". -/
theorem C4_word_boundary :
    (∀ content : List Char, ∀ env ∈ find_nutrient_mentions content,
      ∀ p ∈ env.mentions, ∀ m ∈ p.2,
        (∀ c, ((pyLower content).take m.span.1).getLast? = some c → isWordChar c = false) ∧
        (∀ c, ((pyLower content).drop m.span.2).head? = some c → isWordChar c = false)) ∧
    (∀ content : List Char, ∀ kr ∈ NUTRIENT_VALUES_REGEX,
      ∀ q ∈ kindValueMatches kr.2 content,
        (∀ c, ((pyLower content).take q.1).getLast? = some c → isWordChar c = false) ∧
        (∀ c, ((pyLower content).drop (q.1 + q.2.whole.length)).head? = some c →
          isWordChar c = false)) ∧
    ((List.lookup "salt" NUTRIENT_MENTIONS_REGEX).map (fun orx =>
      mentionFinditer orx.regex (pyLower "conseil d'utilisation".data))) = some [] := by
  refine ⟨?_, ?_, by rfl⟩
  · intro content env he p hp m hm
    have hp' : (p.1, p.2) ∈ mentionsMapping content := by
      rw [Prod.mk.eta, ← (find_mentions_elim he).2.1]
      exact hp
    obtain ⟨orx, hk, hms, -⟩ := mem_mentionsMapping hp'
    rw [hms] at hm
    obtain ⟨q, hq, rfl⟩ := List.mem_map.mp hm
    have hlc : orx.lowercase = true := by
      simpa using List.all_eq_true.mp mentions_regex_lowercase (p.1, orx) hk
    have htext : get_text content orx = pyLower content := by
      simp [get_text, hlc]
    simp only [kindMentionMatches, htext] at hq
    by_cases hemp : (pyLower content).isEmpty
    · rw [if_pos hemp] at hq
      exact absurd hq (by simp)
    · rw [if_neg hemp] at hq
      obtain ⟨hprev, r, hmm, hnext⟩ := mentionMatchAt_some (mem_mentionFinditer hq)
      refine ⟨prevOk_spec hprev, ?_⟩
      have hrest := drop_of_split (mem_mmatch_append hmm)
      show ∀ c, ((pyLower content).drop (q.1 + q.2.length)).head? = some c →
        isWordChar c = false
      rw [hrest]
      exact nextOk_spec hnext
  · intro content kr hk q hq
    have hlc : kr.2.lowercase = true := by
      have := List.all_eq_true.mp values_regex_number kr hk
      simp only [Bool.and_eq_true] at this
      exact this.1
    have htext : get_text content kr.2 = pyLower content := by
      simp [get_text, hlc]
    simp only [kindValueMatches, htext] at hq
    by_cases hemp : (pyLower content).isEmpty
    · rw [if_pos hemp] at hq
      exact absurd hq (by simp)
    · rw [if_neg hemp] at hq
      have hma := mem_valueFinditer hq
      obtain ⟨hprev, -⟩ := valueMatchAt_some hma
      obtain ⟨r, hsplit, hnext⟩ := valueMatchAt_split hma
      refine ⟨prevOk_spec hprev, ?_⟩
      rw [drop_of_split hsplit]
      exact nextOk_spec hnext

/-- Witness for C4 at the concrete input "sel 1g": the character at the
end of the reported salt mention is the space, not a word character. -/
theorem C4_word_boundary_witness : isWordChar ' ' = false :=
  (C4_word_boundary.1 "sel 1g".data
    ⟨[("salt", [⟨"sel".data, (0, 3)⟩])], "1"⟩ (by decide)
    ("salt", [⟨"sel".data, (0, 3)⟩]) (by decide)
    ⟨"sel".data, (0, 3)⟩ (by decide)).2 ' ' (by rfl)

/-- C3: every value match's `value` field is the captured numeric group
with each comma replaced by a dot, and always matches
`^[0-9]+\.?[0-9]*$`. -/
theorem C3_value_normalized (content : List Char) :
    ∀ env ∈ find_nutrient_values content, ∀ p ∈ env.nutrients, ∀ m ∈ p.2,
      (∃ orx q, (p.1, orx) ∈ NUTRIENT_VALUES_REGEX ∧ q ∈ kindValueMatches orx content ∧
        m = mkValueMatch p.1 q ∧ m.value = q.2.num.map commaToDot) ∧
      isNormalizedDecimal m.value = true := by
  intro env he p hp m hm
  have hp' : (p.1, p.2) ∈ valuesMapping content := by
    rw [Prod.mk.eta, ← (find_values_elim he).2.1]
    exact hp
  obtain ⟨orx, hk, hms, -⟩ := mem_valuesMapping hp'
  rw [hms] at hm
  obtain ⟨q, hq, rfl⟩ := List.mem_map.mp hm
  refine ⟨⟨orx, q, hk, hq, rfl, rfl⟩, ?_⟩
  have hnum : orx.regex.number = numberRe := by
    have := List.all_eq_true.mp values_regex_number (p.1, orx) hk
    simp only [Bool.and_eq_true, beq_iff_eq] at this
    exact this.2
  have hlc : orx.lowercase = true := by
    have := List.all_eq_true.mp values_regex_number (p.1, orx) hk
    simp only [Bool.and_eq_true] at this
    exact this.1
  have htext : get_text content orx = pyLower content := by
    simp [get_text, hlc]
  simp only [kindValueMatches, htext] at hq
  by_cases hemp : (pyLower content).isEmpty
  · rw [if_pos hemp] at hq
    exact absurd hq (by simp)
  · rw [if_neg hemp] at hq
    obtain ⟨-, m1, r1, sp, r2, n, r3, sp2, r4, u, r5, -, -, h3, -, -, -, hpeq⟩ :=
      valueMatchAt_some (mem_valueFinditer hq)
    show isNormalizedDecimal (q.2.num.map commaToDot) = true
    rw [hpeq]
    exact mem_mmatch_numberRe (hnum ▸ h3)

/-- Witness for C3 at the concrete input "sel 0,1g": the value "0.1" is a
normalized decimal. -/
theorem C3_value_normalized_witness :
    isNormalizedDecimal ("0.1".data) = true :=
  (C3_value_normalized "sel 0,1g".data
    ⟨[("salt", [⟨"sel 0,1g".data, "salt", "0.1".data, "g".data⟩])], "1"⟩ (by decide)
    ("salt", [⟨"sel 0,1g".data, "salt", "0.1".data, "g".data⟩]) (by decide)
    ⟨"sel 0,1g".data, "salt", "0.1".data, "g".data⟩ (by decide)).2

/-- Invariant-carrying specification of the `batch_insert` loop: with
`inserts` holding exactly `rows % batch_size` pending items, the loop adds
the remaining item count to `rows`, submits every pending and remaining
item exactly once in order, and every submitted chunk is non-empty and at
most `batch_size` long. -/
theorem batchAux_spec {α : Type} (bs : Nat) (hbs : 0 < bs) (data : List α) :
    ∀ (rows : Nat) (inserts : List α) (execs : List (List α)),
      inserts.length = rows % bs →
      (∀ c ∈ execs, c ≠ [] ∧ c.length ≤ bs) →
      (batchAux bs data rows inserts execs).1 = rows + data.length ∧
      (batchAux bs data rows inserts execs).2.flatten = execs.flatten ++ inserts ++ data ∧
      ∀ c ∈ (batchAux bs data rows inserts execs).2, c ≠ [] ∧ c.length ≤ bs := by
  induction data with
  | nil =>
      intro rows inserts execs hinv hex
      by_cases he : inserts.isEmpty
      · have : inserts = [] := List.isEmpty_iff.mp he
        subst this
        simp only [batchAux, if_pos he]
        exact ⟨rfl, by simp, hex⟩
      · simp only [batchAux, if_neg he]
        refine ⟨rfl, by simp, ?_⟩
        intro c hc
        rcases List.mem_append.mp hc with hc | hc
        · exact hex c hc
        · rcases List.mem_singleton.mp hc with rfl
          refine ⟨by simpa [List.isEmpty_iff] using he, ?_⟩
          rw [hinv]
          exact Nat.le_of_lt (Nat.mod_lt rows hbs)
  | cons item rest ih =>
      intro rows inserts execs hinv hex
      have hlt : rows % bs < bs := Nat.mod_lt rows hbs
      by_cases hz : (rows + 1) % bs = 0
      · have step := ih (rows + 1) [] (execs ++ [inserts ++ [item]])
          (by simp [hz]) ?_
        · simp only [batchAux, if_pos hz]
          refine ⟨by rw [step.1, List.length_cons]; omega, ?_, step.2.2⟩
          rw [step.2.1]
          simp
        · intro c hc
          rcases List.mem_append.mp hc with hc | hc
          · exact hex c hc
          · rcases List.mem_singleton.mp hc with rfl
            refine ⟨by simp, ?_⟩
            rw [List.length_append, hinv]
            simpa using hlt
      · have hmod : (rows + 1) % bs = rows % bs + 1 := by
          rw [← Nat.mod_add_mod]
          rcases Nat.lt_or_ge (rows % bs + 1) bs with hlt2 | hge
          · exact Nat.mod_eq_of_lt hlt2
          · have : rows % bs + 1 = bs := Nat.le_antisymm hlt hge
            rw [← Nat.mod_add_mod] at hz
            rw [this] at hz
            exact absurd (Nat.mod_self bs) hz
        have step := ih (rows + 1) (inserts ++ [item]) execs
          (by rw [List.length_append, hinv, hmod]; rfl) hex
        simp only [batchAux, if_neg hz]
        refine ⟨by rw [step.1, List.length_cons]; omega, ?_, step.2.2⟩
        rw [step.2.1]
        simp

/-- C10: for a positive batch size, `batch_insert` returns the number of
items consumed, submits every item exactly once in input order, and every
submitted chunk is non-empty and at most `batch_size` long. -/
theorem C10_batch_insert {α : Type} (batch_size : Nat) (data : List α)
    (h : 0 < batch_size) :
    (batch_insert batch_size data).1 = data.length ∧
    (batch_insert batch_size data).2.flatten = data ∧
    ∀ c ∈ (batch_insert batch_size data).2, c ≠ [] ∧ c.length ≤ batch_size := by
  have step := batchAux_spec batch_size h data 0 [] [] (by simp) (by simp)
  unfold batch_insert
  refine ⟨by rw [step.1]; omega, by rw [step.2.1]; simp, step.2.2⟩

/-- Witness for C10 at batch size 2 over three items. -/
theorem C10_batch_insert_witness :
    (batch_insert 2 [1, 2, 3]).1 = [1, 2, 3].length ∧
    (batch_insert 2 [1, 2, 3]).2.flatten = [1, 2, 3] := by
  have h := C10_batch_insert 2 [1, 2, 3] (by decide)
  exact ⟨h.1, h.2.1⟩

end Robotoff
